import Mathlib

/-!
# TOTP generation (main.go)

A shallow embedding of the 2FA API server: normalizeSecret, generateTOTP and handleTOTP of
main.go, over models of the Go standard library functions they call (strings, unicode/utf8,
encoding/base32, crypto/sha1, crypto/hmac, encoding/binary, fmt).

* Go strings are byte sequences; runes are decoded and encoded as the utf8 package does.
* The Unix time read by time.Now().Unix() is the parameter now of generateTOTP.
* The Unicode case table consulted by strings.ToUpper for runes above U+007F is the parameter
  caseTable; for an ASCII secret it is never consulted.
* A run-time panic is the outer none of an Option.

The definitions come first, then lemmas on the library models, then one section per property
of the program.
-/

namespace Totp

/-! ## Go strings as byte sequences -/

/-- A Go byte (uint8). -/
abbrev Byte := Fin 256

/-- A Go string value: an immutable sequence of bytes, not necessarily valid UTF-8. -/
abbrev GoString := List Byte

/-- Go conversion byte(x): keeps the low eight bits. -/
def toByte (x : Nat) : Byte := ⟨x % 256, Nat.mod_lt x (by decide)⟩

/-- The rune utf8.RuneError, U+FFFD. -/
def runeError : Char := Char.ofNat 0xFFFD

/-- Go utf8.AppendRune for a valid scalar value: the UTF-8 encoding of a rune. -/
def encodeRune (r : Char) : GoString :=
  let n := r.toNat
  if n < 0x80 then [toByte n]
  else if n < 0x800 then [toByte (0xC0 ||| (n >>> 6)), toByte (0x80 ||| (n &&& 0x3F))]
  else if n < 0x10000 then
    [toByte (0xE0 ||| (n >>> 12)), toByte (0x80 ||| ((n >>> 6) &&& 0x3F)),
     toByte (0x80 ||| (n &&& 0x3F))]
  else
    [toByte (0xF0 ||| (n >>> 18)), toByte (0x80 ||| ((n >>> 12) &&& 0x3F)),
     toByte (0x80 ||| ((n >>> 6) &&& 0x3F)), toByte (0x80 ||| (n &&& 0x3F))]

/-- The bytes of a sequence of runes, as strings.Builder.WriteRune lays them out. -/
def encodeRunes (rs : List Char) : GoString := rs.flatMap encodeRune

/-- The bytes of a Go string literal. -/
def goString (s : String) : GoString := encodeRunes s.data

/-- Go utf8 first-byte table for lead bytes at or above 0x80: the sequence length and the
accepted range of the second byte; none for a byte that cannot start a sequence. -/
def utf8First (b0 : Nat) : Option (Nat × Nat × Nat) :=
  if b0 < 0xC2 then none
  else if b0 < 0xE0 then some (2, 0x80, 0xBF)
  else if b0 = 0xE0 then some (3, 0xA0, 0xBF)
  else if b0 = 0xED then some (3, 0x80, 0x9F)
  else if b0 < 0xF0 then some (3, 0x80, 0xBF)
  else if b0 = 0xF0 then some (4, 0x90, 0xBF)
  else if b0 < 0xF4 then some (4, 0x80, 0xBF)
  else if b0 = 0xF4 then some (4, 0x80, 0x8F)
  else none

/-- Go utf8.DecodeRuneInString: the first rune of the string and its width in bytes.
An invalid or truncated sequence decodes to (RuneError, 1); the empty string to (RuneError, 0). -/
def decodeRune : GoString → Char × Nat
  | [] => (runeError, 0)
  | s0 :: rest =>
    if s0.val < 0x80 then (Char.ofNat s0.val, 1)
    else
      match utf8First s0.val with
      | none => (runeError, 1)
      | some (sz, lo, hi) =>
        match rest with
        | [] => (runeError, 1)
        | s1 :: rest1 =>
          if rest.length + 1 < sz then (runeError, 1)
          else if s1.val < lo ∨ hi < s1.val then (runeError, 1)
          else if sz ≤ 2 then (Char.ofNat (((s0.val &&& 0x1F) <<< 6) ||| (s1.val &&& 0x3F)), 2)
          else
            match rest1 with
            | [] => (runeError, 1)
            | s2 :: rest2 =>
              if s2.val < 0x80 ∨ 0xBF < s2.val then (runeError, 1)
              else if sz ≤ 3 then
                (Char.ofNat (((s0.val &&& 0x0F) <<< 12) ||| ((s1.val &&& 0x3F) <<< 6)
                  ||| (s2.val &&& 0x3F)), 3)
              else
                match rest2 with
                | [] => (runeError, 1)
                | s3 :: _ =>
                  if s3.val < 0x80 ∨ 0xBF < s3.val then (runeError, 1)
                  else
                    (Char.ofNat (((s0.val &&& 0x07) <<< 18) ||| ((s1.val &&& 0x3F) <<< 12)
                      ||| ((s2.val &&& 0x3F) <<< 6) ||| (s3.val &&& 0x3F)), 4)

/-- The runes a Go range loop over the string yields, in order. -/
def decodeRunesAux : Nat → GoString → List Char
  | 0, _ => []
  | _ + 1, [] => []
  | fuel + 1, b :: rest =>
    let rw := decodeRune (b :: rest)
    rw.1 :: decodeRunesAux fuel ((b :: rest).drop rw.2)

/-- The runes of a Go string. -/
def decodeRunes (s : GoString) : List Char := decodeRunesAux s.length s

/-- Go unicode.ToUpper. The ASCII branch is the code of the library; the mapping of the
runes above U+007F is the library table unicode.CaseRanges, taken as the parameter
caseTable. -/
def unicodeToUpper (caseTable : Char → Char) (r : Char) : Char :=
  if r.toNat ≤ 0x7F then
    if 0x61 ≤ r.toNat ∧ r.toNat ≤ 0x7A then Char.ofNat (r.toNat - 0x20) else r
  else caseTable r

/-- Go strings.ToUpper: every rune of the string mapped through unicode.ToUpper and written
back as UTF-8 (an invalid byte is read as RuneError and so written as U+FFFD). The ASCII fast
path and the unchanged-input fast path of strings.Map return the same bytes. -/
def stringsToUpper (caseTable : Char → Char) (s : GoString) : GoString :=
  encodeRunes ((decodeRunes s).map (unicodeToUpper caseTable))

/-- Go strings.ReplaceAll(s, " ", ""): every space byte removed. -/
def removeSpaces (s : GoString) : GoString := s.filter (fun b => b.val ≠ 0x20)

/-- normalizeSecret removes spaces and converts to uppercase. -/
def normalizeSecret (caseTable : Char → Char) (secret : GoString) : GoString :=
  stringsToUpper caseTable (removeSpaces secret)

/-- The decode map of base32.StdEncoding: the index of the byte in the alphabet
"ABCDEFGHIJKLMNOPQRSTUVWXYZ234567", 0xFF for every other byte. -/
def decodeMap (b : Byte) : Nat :=
  if 0x41 ≤ b.val ∧ b.val ≤ 0x5A then b.val - 0x41
  else if 0x32 ≤ b.val ∧ b.val ≤ 0x37 then b.val - 0x32 + 26
  else 0xFF

/-- The alphabet of RFC 4648 base32: the letters A to Z and the digits 2 to 7. -/
def base32Alphabet : GoString := goString "ABCDEFGHIJKLMNOPQRSTUVWXYZ234567"

/-- Go base32 stripNewlines: the bytes other than CR and LF. -/
def stripNewlines (s : GoString) : GoString :=
  s.filter (fun b => b.val ≠ 0x0D ∧ b.val ≠ 0x0A)

/-- The pad byte the decoder compares against: byte(enc.padChar), with padChar = NoPadding
= -1, is 0xFF. -/
def padByte : Nat := 0xFF

/-- The outcome of reading one quantum: the decoded 5-bit values, their number dlen, the end
flag and the unread input. -/
structure Quantum where
  dbuf : List Nat
  dlen : Nat
  atEnd : Bool
  rest : GoString

/-- The inner loop of Encoding.decode (for j := 0; j < 8), run from index j with k = 8 - j
iterations left; an error carries the CorruptInputError offset. -/
def readQuantum (olen : Nat) : Nat → Nat → List Nat → GoString → Except Nat Quantum
  | 0, _, dbuf, src => .ok ⟨dbuf, 8, false, src⟩
  | _ + 1, j, dbuf, [] => .ok ⟨dbuf, j, true, []⟩
  | k + 1, j, dbuf, b :: src =>
    if b.val = padByte ∧ 2 ≤ j ∧ src.length < 8 then
      if src.length + j < 8 - 1 then .error olen
      else
        match (src.take (8 - 1 - j)).findIdx? (fun c => c.val ≠ padByte) with
        | some i => .error (olen - src.length + i - 1)
        | none =>
          if j = 1 ∨ j = 3 ∨ j = 6 then .error (olen - src.length - 1)
          else .ok ⟨dbuf, j, true, src⟩
    else
      if decodeMap b = 0xFF then .error (olen - src.length - 1)
      else readQuantum olen k (j + 1) (dbuf ++ [decodeMap b]) src

/-- The packing switch of Encoding.decode: the destination bytes of one quantum. Entries of
dbuf that were not read are zero, as in the Go array. -/
def packQuantum (dbuf : List Nat) (dlen : Nat) : List Nat :=
  let d := fun i => dbuf.getD i 0
  let b0 := ((d 0 <<< 3) ||| (d 1 >>> 2)) % 256
  let b1 := ((d 1 <<< 6) ||| (d 2 <<< 1) ||| (d 3 >>> 4)) % 256
  let b2 := ((d 3 <<< 4) ||| (d 4 >>> 1)) % 256
  let b3 := ((d 4 <<< 7) ||| (d 5 <<< 2) ||| (d 6 >>> 3)) % 256
  let b4 := ((d 6 <<< 5) ||| d 7) % 256
  if dlen = 8 then [b0, b1, b2, b3, b4]
  else if dlen = 7 then [b0, b1, b2, b3]
  else if dlen = 5 then [b0, b1, b2]
  else if dlen = 4 then [b0, b1]
  else if dlen = 2 then [b0]
  else []

/-- The outer loop of Encoding.decode (for len(src) > 0 && !end); fuel bounds the number of
quanta. -/
def decodeLoop (olen : Nat) : Nat → GoString → List Nat → Except Nat (List Nat)
  | 0, _, dst => .ok dst
  | _ + 1, [], dst => .ok dst
  | fuel + 1, b :: src, dst =>
    match readQuantum olen 8 0 [] (b :: src) with
    | .error e => .error e
    | .ok q =>
      if q.atEnd then .ok (dst ++ packQuantum q.dbuf q.dlen)
      else decodeLoop olen fuel q.rest (dst ++ packQuantum q.dbuf q.dlen)

/-- Go base32.StdEncoding.WithPadding(base32.NoPadding).DecodeString: the decoded bytes, or
the offset of a CorruptInputError. -/
def decodeString (s : GoString) : Except Nat (List Nat) :=
  let src := stripNewlines s
  decodeLoop src.length src.length src []

/-! ## crypto/sha1 and crypto/hmac -/

/-- Rotate a 32-bit word left by k bits (bits.RotateLeft32). -/
def rotl32 (x k : Nat) : Nat := ((x <<< k) ||| (x >>> (32 - k))) % 2 ^ 32

/-- Big-endian 32-bit word of four bytes. -/
def be32 (b0 b1 b2 b3 : Nat) : Nat := (b0 <<< 24) ||| (b1 <<< 16) ||| (b2 <<< 8) ||| b3

/-- The first n big-endian words of a block. -/
def blockWords : Nat → List Nat → List Nat
  | 0, _ => []
  | n + 1, b0 :: b1 :: b2 :: b3 :: rest => be32 b0 b1 b2 b3 :: blockWords n rest
  | _ + 1, _ => []

/-- Extends the message schedule by n words; the list holds the newest word first, so
w[i] = rotl1 (w[i-3] xor w[i-8] xor w[i-14] xor w[i-16]). -/
def expandSchedule : Nat → List Nat → List Nat
  | 0, w => w
  | n + 1, w =>
    match w with
    | _ :: _ :: w3 :: _ :: _ :: _ :: _ :: w8 :: _ :: _ :: _ :: _ :: _ :: w14 :: _ :: w16 :: _ =>
      expandSchedule n (rotl32 (w3 ^^^ w8 ^^^ w14 ^^^ w16) 1 :: w)
    | _ => w

/-- The five 32-bit chaining words of SHA-1. -/
structure Sha1State where
  h0 : Nat
  h1 : Nat
  h2 : Nat
  h3 : Nat
  h4 : Nat
deriving DecidableEq, Repr

/-- The round function f of round i. -/
def roundF (i b c d : Nat) : Nat :=
  if i < 20 then (b &&& c) ||| ((b ^^^ 0xFFFFFFFF) &&& d)
  else if i < 40 then b ^^^ c ^^^ d
  else if i < 60 then ((b ||| c) &&& d) ||| (b &&& c)
  else b ^^^ c ^^^ d

/-- The round constant of round i. -/
def roundK (i : Nat) : Nat :=
  if i < 20 then 0x5A827999
  else if i < 40 then 0x6ED9EBA1
  else if i < 60 then 0x8F1BBCDC
  else 0xCA62C1D6

/-- The rounds of one block over the schedule words, from round i on. -/
def rounds : Nat → List Nat → Sha1State → Sha1State
  | _, [], s => s
  | i, w :: ws, s =>
    let t := (rotl32 s.h0 5 + roundF i s.h1 s.h2 s.h3 + s.h4 + w + roundK i) % 2 ^ 32
    rounds (i + 1) ws ⟨t, s.h0, rotl32 s.h1 30, s.h2, s.h3⟩

/-- The compression of one 64-byte block (sha1 blockGeneric, one iteration). -/
def block (s : Sha1State) (p : List Nat) : Sha1State :=
  let w := (expandSchedule 64 (blockWords 16 p).reverse).reverse
  let r := rounds 0 w s
  ⟨(s.h0 + r.h0) % 2 ^ 32, (s.h1 + r.h1) % 2 ^ 32, (s.h2 + r.h2) % 2 ^ 32,
   (s.h3 + r.h3) % 2 ^ 32, (s.h4 + r.h4) % 2 ^ 32⟩

/-- The compression of n consecutive blocks. -/
def blocks : Nat → Sha1State → List Nat → Sha1State
  | 0, s, _ => s
  | n + 1, s, p => blocks n (block s p) (p.drop 64)

/-- Go binary.BigEndian.PutUint64. -/
def putUint64 (v : Nat) : List Nat :=
  [(v >>> 56) % 256, (v >>> 48) % 256, (v >>> 40) % 256, (v >>> 32) % 256,
   (v >>> 24) % 256, (v >>> 16) % 256, (v >>> 8) % 256, v % 256]

/-- Go binary.BigEndian.PutUint32. -/
def putUint32 (v : Nat) : List Nat :=
  [(v >>> 24) % 256, (v >>> 16) % 256, (v >>> 8) % 256, v % 256]

/-- The padding sha1 checkSum appends to a message of len bytes: 0x80, zeros up to 56 mod 64,
then the length in bits as a 64-bit big-endian integer. -/
def sha1Padding (len : Nat) : List Nat :=
  let zeros := if len % 64 < 56 then 56 - len % 64 - 1 else 64 + 56 - len % 64 - 1
  0x80 :: List.replicate zeros 0 ++ putUint64 ((len * 8) % 2 ^ 64)

/-- The initial chaining value of SHA-1. -/
def sha1Init : Sha1State := ⟨0x67452301, 0xEFCDAB89, 0x98BADCFE, 0x10325476, 0xC3D2E1F0⟩

/-- The SHA-1 digest of a message (sha1.New, Write, Sum). -/
def sha1Sum (msg : List Nat) : List Nat :=
  let p := msg ++ sha1Padding msg.length
  let d := blocks (p.length / 64) sha1Init p
  putUint32 d.h0 ++ putUint32 d.h1 ++ putUint32 d.h2 ++ putUint32 d.h3 ++ putUint32 d.h4

/-- Go hmac.New(sha1.New, key), Write(msg), Sum(nil): a key longer than the 64-byte block is
hashed first, the key is zero-padded to the block, then H(opad ++ H(ipad ++ msg)). -/
def hmacSha1 (key msg : List Nat) : List Nat :=
  let k0 := if 64 < key.length then sha1Sum key else key
  let k := k0 ++ List.replicate (64 - k0.length) 0
  sha1Sum (k.map (fun b => b ^^^ 0x5c) ++ sha1Sum (k.map (fun b => b ^^^ 0x36) ++ msg))

/-! ## fmt and slices -/

/-- The decimal digit character of d. -/
def digitChar (d : Nat) : Char := Char.ofNat (0x30 + d)

/-- The decimal digits of n written in front of acc (strconv formatting of an unsigned
integer); fuel bounds the number of digits. -/
def decimalAux : Nat → Nat → List Char → List Char
  | 0, _, acc => acc
  | fuel + 1, n, acc =>
    if n < 10 then digitChar n :: acc
    else decimalAux fuel (n / 10) (digitChar (n % 10) :: acc)

/-- The decimal rendering of a natural number. -/
def formatDecimal (n : Nat) : List Char := decimalAux (n + 1) n []

/-- Go fmt.Sprintf("%06d", n) for an unsigned n: the decimal digits, left-padded with zeros
to a width of six. -/
def sprintf06d (n : Nat) : String :=
  ⟨List.replicate (6 - (formatDecimal n).length) (Char.ofNat 0x30) ++ formatDecimal n⟩

/-- The number a string of decimal digits denotes. -/
def decimalValue (s : String) : Nat :=
  s.data.foldl (fun v c => 10 * v + (c.toNat - 0x30)) 0

/-- Go slice expression xs[lo:hi], checked against the length; none is the run-time panic. -/
def sliceBytes (xs : List Nat) (lo hi : Nat) : Option (List Nat) :=
  if lo ≤ hi ∧ hi ≤ xs.length then some ((xs.drop lo).take (hi - lo)) else none

/-- Go binary.BigEndian.Uint32; none is the panic on a slice shorter than four bytes. -/
def uint32BE : List Nat → Option Nat
  | b0 :: b1 :: b2 :: b3 :: _ => some (be32 b0 b1 b2 b3)
  | _ => none

/-! ## The program (main.go) -/

/-- The TOTP period in seconds. -/
def totpPeriod : Int := 30

/-- The value generateTOTP returns: the code, the seconds remaining, and the error (none is
Go nil). -/
structure TOTPResult where
  code : String
  remaining : Int
  err : Option String
deriving DecidableEq, Repr

/-- Go base32 CorruptInputError.Error(): the text of a decode error at the given offset. -/
def corruptInputError (offset : Nat) : String :=
  "illegal base32 data at input byte " ++ String.mk (formatDecimal offset)

/-- Go fmt.Errorf("invalid secret key: %v", err) for a CorruptInputError err. -/
def invalidSecretMessage (offset : Nat) : String :=
  "invalid secret key: " ++ corruptInputError offset

/-- The time counter: uint64(now / totpPeriod), Go division truncating toward zero. -/
def timeCounter (now : Int) : Nat := ((Int.tdiv now totpPeriod) % 2 ^ 64).toNat

/-- The seconds remaining: totpPeriod - int(now % totpPeriod), the Go remainder having the
sign of the dividend. -/
def remainingSeconds (now : Int) : Int := totpPeriod - Int.tmod now totpPeriod

/-- Dynamic truncation and formatting of an HMAC digest (lines 58 to 64 of main.go); none is a
run-time panic of an index or slice expression. -/
def truncateHash (hash : List Nat) : Option String :=
  match hash.getLast? with
  | none => none
  | some last =>
    let offset := last &&& 0x0f
    match sliceBytes hash offset ((offset + 4) % 256) with
    | none => none
    | some four =>
      match uint32BE four with
      | none => none
      | some v =>
        let truncated := v &&& 0x7fffffff
        let otp := truncated % 1000000
        some (sprintf06d otp)

/-- generateTOTP generates a TOTP code from a base32 secret; now is the value of
time.Now().Unix(). The outer none is a run-time panic. -/
def generateTOTP (caseTable : Char → Char) (secret : GoString) (now : Int) :
    Option TOTPResult :=
  let secret := normalizeSecret caseTable secret
  match decodeString secret with
  | .error e => some ⟨"", 0, some (invalidSecretMessage e)⟩
  | .ok key =>
    let counter := timeCounter now
    let remaining := remainingSeconds now
    let counterBytes := putUint64 counter
    let hash := hmacSha1 key counterBytes
    match truncateHash hash with
    | none => none
    | some code => some ⟨code, remaining, none⟩


/-- Response represents the API response. -/
structure Response where
  Success : Bool
  Code : String
  Remaining : Int
  Error : String
deriving DecidableEq, Repr

/-- A member of a JSON object whose name matches the field secret of the request struct, by
the kind of its value: a string (escapes resolved), null, or a value of another type. -/
inductive SecretMember
  | string (s : GoString)
  | null
  | mismatch
deriving DecidableEq, Repr

/-- The JSON text of a request body, as far as decoding it into the request struct depends on
it: text that is not JSON; the literal null; an object, given by its members named secret in
order (members of other names are ignored); any other JSON value (an array, string, number or
boolean). -/
inductive JsonBody
  | malformed
  | null
  | object (members : List SecretMember)
  | other
deriving DecidableEq, Repr

/-- Whether the body is well-formed JSON. -/
def JsonBody.wellFormed : JsonBody → Bool
  | .malformed => false
  | _ => true

/-- The value a member leaves in the Secret field: a string sets it, null has no effect. -/
def SecretMember.assign (current : GoString) : SecretMember → GoString
  | .string s => s
  | _ => current

/-- Go json.NewDecoder(r.Body).Decode(&req) for the request struct with the one field Secret:
the Secret field after a decode without error, none when Decode returns an error (a syntax
error, or an UnmarshalTypeError for a top-level value that is not an object or for a secret
member that is not a string). -/
def decodeBody : JsonBody → Option GoString
  | .malformed => none
  | .other => none
  | .null => some []
  | .object members =>
    if members.any (fun m => m = SecretMember.mismatch) then none
    else some (members.foldl SecretMember.assign [])

/-- What handleTOTP reads of a request: the method, the JSON body, and
r.URL.Query().Get("secret") (empty when the parameter is absent). -/
structure Request where
  Method : String
  body : JsonBody
  querySecret : GoString

/-- What handleTOTP does: the status code, the Response it encodes, and the secrets it passed
to generateTOTP, in order. -/
structure HandlerOutput where
  status : Nat
  body : Response
  engineCalls : List GoString
deriving DecidableEq, Repr

/-- The secret handleTOTP extracts (lines 76 to 93): from the JSON body of a POST, from the
query of any other method; none when the body does not decode. -/
def requestSecret (r : Request) : Option GoString :=
  if r.Method = "POST" then decodeBody r.body else some r.querySecret

/-- handleTOTP handles the /api/totp endpoint (GET and POST). The outer none is a run-time
panic of generateTOTP. -/
def handleTOTP (caseTable : Char → Char) (r : Request) (now : Int) : Option HandlerOutput :=
  match requestSecret r with
  | none => some ⟨400, ⟨false, "", 0, "invalid JSON body"⟩, []⟩
  | some secret =>
    if secret = [] then some ⟨400, ⟨false, "", 0, "missing secret parameter"⟩, []⟩
    else
      match generateTOTP caseTable secret now with
      | none => none
      | some res =>
        match res.err with
        | some msg => some ⟨400, ⟨false, "", 0, msg⟩, [secret]⟩
        | none => some ⟨200, ⟨true, res.code, res.remaining, ""⟩, [secret]⟩

/-- A case table that maps every rune to itself; it stands for unicode.CaseRanges wherever the
runes of the secret are ASCII and the table is not consulted. -/
def noCaseTable : Char → Char := fun r => r

/-- The RFC 6238 test secret, the base32 encoding of the ASCII bytes 12345678901234567890. -/
def rfcSecret : GoString := goString "GEZDGNBVGY3TQOJQGEZDGNBVGY3TQOJQ"

/-- The bytes of a string literal as numbers, the form keys and messages take in the hash
functions. -/
def bytesOf (s : String) : List Nat := (goString s).map (fun b => b.val)

/-- The key the RFC 6238 test secret encodes: the ASCII bytes 12345678901234567890. -/
def rfcKey : List Nat := bytesOf "12345678901234567890"

/-! ## Shared lemmas -/

/-- The result of generateTOTP depends on the secret only through its normalized form. -/
theorem generateTOTP_congr (t1 t2 : Char → Char) (s1 s2 : GoString) (now : Int)
    (h : normalizeSecret t1 s1 = normalizeSecret t2 s2) :
    generateTOTP t1 s1 now = generateTOTP t2 s2 now := by
  unfold generateTOTP
  rw [h]

/-! ### The library models on published test vectors -/

/-- FIPS 180 examples: the SHA-1 digests of "abc" and of the two-block message. -/
theorem sha1Sum_fips_vectors :
    sha1Sum (bytesOf "abc") =
      [0xa9, 0x99, 0x3e, 0x36, 0x47, 0x06, 0x81, 0x6a, 0xba, 0x3e,
       0x25, 0x71, 0x78, 0x50, 0xc2, 0x6c, 0x9c, 0xd0, 0xd8, 0x9d] ∧
    sha1Sum (bytesOf "abcdbcdecdefdefgefghfghighijhijkijkljklmklmnlmnomnopnopq") =
      [0x84, 0x98, 0x3e, 0x44, 0x1c, 0x3b, 0xd2, 0x6e, 0xba, 0xae,
       0x4a, 0xa1, 0xf9, 0x51, 0x29, 0xe5, 0xe5, 0x46, 0x70, 0xf1] := by
  refine ⟨by decide!, by decide!⟩

/-- RFC 2202 test cases 1, 2 and 6 of HMAC-SHA1; the key of case 6 is longer than a block. -/
theorem hmacSha1_rfc2202_vectors :
    hmacSha1 (List.replicate 20 0x0b) (bytesOf "Hi There") =
      [0xb6, 0x17, 0x31, 0x86, 0x55, 0x05, 0x72, 0x64, 0xe2, 0x8b,
       0xc0, 0xb6, 0xfb, 0x37, 0x8c, 0x8e, 0xf1, 0x46, 0xbe, 0x00] ∧
    hmacSha1 (bytesOf "Jefe") (bytesOf "what do ya want for nothing?") =
      [0xef, 0xfc, 0xdf, 0x6a, 0xe5, 0xeb, 0x2f, 0xa2, 0xd2, 0x74,
       0x16, 0xd5, 0xf1, 0x84, 0xdf, 0x9c, 0x25, 0x9a, 0x7c, 0x79] ∧
    hmacSha1 (List.replicate 80 0xaa)
        (bytesOf "Test Using Larger Than Block-Size Key - Hash Key First") =
      [0xaa, 0x4a, 0xe5, 0xe1, 0x52, 0x72, 0xd0, 0x0e, 0x95, 0x70,
       0x56, 0x37, 0xce, 0x8a, 0x3b, 0x55, 0xed, 0x40, 0x21, 0x12] := by
  refine ⟨by decide!, by decide!, by decide!⟩

/-- RFC 4648 examples: the unpadded base32 forms of "fo", "foob" and "foobar" decode back. -/
theorem decodeString_rfc4648_vectors :
    decodeString (goString "MZXQ") = .ok (bytesOf "fo") ∧
    decodeString (goString "MZXW6YQ") = .ok (bytesOf "foob") ∧
    decodeString (goString "MZXW6YTBOI") = .ok (bytesOf "foobar") :=
  ⟨rfl, rfl, rfl⟩

/-- RFC 6238 appendix B, SHA-1 rows reduced to six digits. -/
theorem generateTOTP_rfc6238_vectors :
    generateTOTP noCaseTable rfcSecret 1111111109 = some ⟨"081804", 1, none⟩ ∧
    generateTOTP noCaseTable rfcSecret 1111111111 = some ⟨"050471", 29, none⟩ ∧
    generateTOTP noCaseTable rfcSecret 1234567890 = some ⟨"005924", 30, none⟩ ∧
    generateTOTP noCaseTable rfcSecret 2000000000 = some ⟨"279037", 10, none⟩ ∧
    generateTOTP noCaseTable rfcSecret 20000000000 = some ⟨"353130", 10, none⟩ := by
  refine ⟨by decide!, by decide!, by decide!, by decide!, by decide!⟩

/-- Go range-loop decoding on valid and invalid UTF-8: an invalid or truncated sequence yields
U+FFFD for each of its bytes. -/
theorem decodeRunes_examples :
    decodeRunes (goString "aé€") = [Char.ofNat 0x61, Char.ofNat 0xE9, Char.ofNat 0x20AC] ∧
    decodeRunes [toByte 0xC3, toByte 0x41, toByte 0xE2, toByte 0x82] =
      [runeError, Char.ofNat 0x41, runeError, runeError] ∧
    goString "é€" = [toByte 0xC3, toByte 0xA9, toByte 0xE2, toByte 0x82, toByte 0xAC] := by
  refine ⟨by decide!, by decide!, by decide!⟩

/-! ### Bit arithmetic -/

theorem and_3F (x : Nat) : x &&& 0x3F = x % 64 := Nat.and_pow_two_sub_one_eq_mod x 6
theorem or_80 (x : Nat) (h : x < 64) : 0x80 ||| x = 128 + x :=
  (Nat.mul_add_lt_is_or (show x < 2 ^ 6 from h) 2).symm
theorem or_C0 (x : Nat) (h : x < 32) : 0xC0 ||| x = 192 + x :=
  (Nat.mul_add_lt_is_or (show x < 2 ^ 5 from h) 6).symm
theorem or_E0 (x : Nat) (h : x < 16) : 0xE0 ||| x = 224 + x :=
  (Nat.mul_add_lt_is_or (show x < 2 ^ 4 from h) 14).symm
theorem or_F0 (x : Nat) (h : x < 8) : 0xF0 ||| x = 240 + x :=
  (Nat.mul_add_lt_is_or (show x < 2 ^ 3 from h) 30).symm

theorem char_range (r : Char) :
    r.toNat < 0xD800 ∨ (0xDFFF < r.toNat ∧ r.toNat < 0x110000) := r.valid

theorem encodeRune_one (r : Char) (h : r.toNat < 0x80) : encodeRune r = [toByte r.toNat] := by
  unfold encodeRune
  simp only [h, if_true]

theorem encodeRune_two (r : Char) (h1 : 0x80 ≤ r.toNat) (h2 : r.toNat < 0x800) :
    encodeRune r = [toByte (192 + r.toNat / 64), toByte (128 + r.toNat % 64)] := by
  unfold encodeRune
  have hn : ¬ r.toNat < 0x80 := by omega
  simp only [hn, h2, if_true, if_false, and_3F, Nat.shiftRight_eq_div_pow]
  rw [or_C0 _ (by omega), or_80 _ (by omega)]

theorem encodeRune_three (r : Char) (h1 : 0x800 ≤ r.toNat) (h2 : r.toNat < 0x10000) :
    encodeRune r = [toByte (224 + r.toNat / 4096), toByte (128 + r.toNat / 64 % 64),
      toByte (128 + r.toNat % 64)] := by
  unfold encodeRune
  have hn : ¬ r.toNat < 0x80 := by omega
  have hn2 : ¬ r.toNat < 0x800 := by omega
  simp only [hn, hn2, h2, if_true, if_false, and_3F, Nat.shiftRight_eq_div_pow]
  rw [or_E0 _ (by omega), or_80 _ (by omega), or_80 _ (by omega)]

theorem encodeRune_four (r : Char) (h1 : 0x10000 ≤ r.toNat) :
    encodeRune r = [toByte (240 + r.toNat / 262144), toByte (128 + r.toNat / 4096 % 64),
      toByte (128 + r.toNat / 64 % 64), toByte (128 + r.toNat % 64)] := by
  unfold encodeRune
  have hr := char_range r
  have hn : ¬ r.toNat < 0x80 := by omega
  have hn2 : ¬ r.toNat < 0x800 := by omega
  have hn3 : ¬ r.toNat < 0x10000 := by omega
  simp only [hn, hn2, hn3, if_false, and_3F, Nat.shiftRight_eq_div_pow]
  rw [or_F0 _ (by omega), or_80 _ (by omega), or_80 _ (by omega), or_80 _ (by omega)]


theorem toByte_val (x : Nat) (h : x < 256) : (toByte x).val = x := Nat.mod_eq_of_lt h

/-- A byte of the encoding of a rune is the rune itself when it is ASCII, and otherwise lies between
0x80 and 0xF4. -/
theorem encodeRune_bytes (r : Char) :
    ∀ b ∈ encodeRune r, (b.val = r.toNat ∧ r.toNat < 0x80) ∨ (0x80 ≤ b.val ∧ b.val ≤ 0xF4) := by
  have hr := char_range r
  intro b hb
  by_cases c1 : r.toNat < 0x80
  · rw [encodeRune_one r c1] at hb
    simp only [List.mem_singleton] at hb
    left
    rw [hb]
    exact ⟨toByte_val _ (by omega), c1⟩
  · right
    by_cases c2 : r.toNat < 0x800
    · rw [encodeRune_two r (by omega) c2] at hb
      simp only [List.mem_cons, List.mem_singleton, List.not_mem_nil, or_false] at hb
      rcases hb with h | h <;> rw [h, toByte_val _ (by omega)] <;> omega
    · by_cases c3 : r.toNat < 0x10000
      · rw [encodeRune_three r (by omega) c3] at hb
        simp only [List.mem_cons, List.mem_singleton, List.not_mem_nil, or_false] at hb
        rcases hb with h | h | h <;> rw [h, toByte_val _ (by omega)] <;> omega
      · rw [encodeRune_four r (by omega)] at hb
        simp only [List.mem_cons, List.mem_singleton, List.not_mem_nil, or_false] at hb
        rcases hb with h | h | h | h <;> rw [h, toByte_val _ (by omega)] <;> omega

theorem decodeRunesAux_cons (fuel : Nat) (s : GoString) (h : s ≠ []) :
    decodeRunesAux (fuel + 1) s =
      (decodeRune s).1 :: decodeRunesAux fuel (s.drop (decodeRune s).2) := by
  cases s with
  | nil => exact absurd rfl h
  | cons b rest => rfl

theorem toNat_ofNat_small (v : Nat) (h : v < 0xD800) : (Char.ofNat v).toNat = v := by
  unfold Char.ofNat
  split
  · rfl
  · rename_i hv
    exact absurd (Or.inl h) hv

theorem decodeRune_width_pos (b : Byte) (rest : GoString) :
    1 ≤ (decodeRune (b :: rest)).2 := by
  simp only [decodeRune]
  repeat' split
  all_goals simp

/-- The range loop is run with fuel equal to the length of the string, and more fuel changes
nothing. -/
theorem decodeRunesAux_fuel (fuel : Nat) :
    ∀ (extra : Nat) (s : GoString), s.length ≤ fuel →
      decodeRunesAux (fuel + extra) s = decodeRunesAux fuel s := by
  induction fuel with
  | zero =>
    intro extra s hs
    have : s = [] := List.length_eq_zero.mp (by omega)
    subst this
    cases extra <;> rfl
  | succ fuel ih =>
    intro extra s hs
    cases s with
    | nil => rw [Nat.add_right_comm]; rfl
    | cons b rest =>
      have hw := decodeRune_width_pos b rest
      have hlen : ((b :: rest).drop (decodeRune (b :: rest)).2).length ≤ fuel := by
        rw [List.length_drop]
        simp only [List.length_cons] at hs ⊢
        omega
      rw [Nat.add_right_comm, decodeRunesAux_cons _ _ (List.cons_ne_nil b rest),
        decodeRunesAux_cons _ _ (List.cons_ne_nil b rest), ih extra _ hlen]

theorem readQuantum_rest (olen : Nat) (k : Nat) :
    ∀ (j : Nat) (dbuf : List Nat) (src : GoString) (q : Quantum),
      readQuantum olen k j dbuf src = .ok q → q.atEnd = false →
      q.rest.length + k = src.length := by
  induction k with
  | zero =>
    intro j dbuf src q hq _
    simp only [readQuantum, Except.ok.injEq] at hq
    subst hq
    rfl
  | succ k ih =>
    intro j dbuf src q hq he
    cases src with
    | nil =>
      simp only [readQuantum, Except.ok.injEq] at hq
      subst hq
      cases he
    | cons b src =>
      simp only [readQuantum] at hq
      split at hq
      · split at hq
        · cases hq
        · split at hq
          · cases hq
          · split at hq
            · cases hq
            · simp only [Except.ok.injEq] at hq
              subst hq
              cases he
      · split at hq
        · cases hq
        · have := ih (j + 1) _ src q hq he
          simp only [List.length_cons]
          omega

/-- The decode loop is run with fuel equal to the length of the input, and more fuel changes
nothing. -/
theorem decodeLoop_fuel (olen : Nat) (fuel : Nat) :
    ∀ (extra : Nat) (src : GoString) (dst : List Nat), src.length ≤ fuel →
      decodeLoop olen (fuel + extra) src dst = decodeLoop olen fuel src dst := by
  induction fuel with
  | zero =>
    intro extra src dst hs
    have : src = [] := List.length_eq_zero.mp (by omega)
    subst this
    cases extra <;> rfl
  | succ fuel ih =>
    intro extra src dst hs
    cases src with
    | nil => rw [Nat.add_right_comm]; rfl
    | cons b src =>
      rw [Nat.add_right_comm]
      simp only [decodeLoop]
      cases hq : readQuantum olen 8 0 [] (b :: src) with
      | error e => rfl
      | ok q =>
        simp only
        cases he : q.atEnd with
        | true => rfl
        | false =>
          simp only [Bool.false_eq_true, if_false]
          have := readQuantum_rest olen 8 0 [] (b :: src) q hq he
          simp only [List.length_cons] at this hs
          exact ih extra q.rest _ (by omega)

/-- The padded message is a whole number of 64-byte blocks. -/
theorem sha1_padded_length (msg : List Nat) :
    (msg ++ sha1Padding msg.length).length % 64 = 0 := by
  simp only [sha1Padding, putUint64, List.length_append, List.length_cons,
    List.length_replicate, List.length_nil]
  split <;> omega

/-! ### ASCII secrets do not consult the case table -/

theorem decodeRunesAux_ascii (fuel : Nat) :
    ∀ s : GoString, (∀ b ∈ s, b.val < 0x80) →
      ∀ c ∈ decodeRunesAux fuel s, c.toNat ≤ 0x7F := by
  induction fuel with
  | zero =>
    intro s _ c hc
    simp [decodeRunesAux] at hc
  | succ fuel ih =>
    intro s hs c hc
    cases s with
    | nil => simp [decodeRunesAux] at hc
    | cons b rest =>
      have hb : b.val < 0x80 := hs b (List.mem_cons_self b rest)
      rw [decodeRunesAux_cons fuel _ (List.cons_ne_nil b rest)] at hc
      rcases List.mem_cons.mp hc with h | h
      · rw [h]
        simp only [decodeRune, if_pos hb]
        rw [toNat_ofNat_small _ (by omega)]
        omega
      · exact ih _ (fun x hx => hs x (List.mem_of_mem_drop hx)) c h

/-- On a secret of ASCII bytes normalizeSecret does not depend on the case table. -/
theorem normalizeSecret_ascii (t1 t2 : Char → Char) (s : GoString)
    (h : ∀ b ∈ s, b.val < 0x80) : normalizeSecret t1 s = normalizeSecret t2 s := by
  unfold normalizeSecret stringsToUpper
  congr 1
  apply List.map_congr_left
  intro c hc
  have hc7 : c.toNat ≤ 0x7F :=
    decodeRunesAux_ascii _ _ (fun b hb => h b (List.mem_of_mem_filter hb)) c hc
  unfold unicodeToUpper
  rw [if_pos hc7, if_pos hc7]

/-! ### Secrets that differ in case and spaces normalize alike -/

/-- On input without the pad byte a quantum is read without error only when every byte read is
in the alphabet: it either reaches the end of the input or consumes k bytes. -/
theorem readQuantum_ok (olen : Nat) (k : Nat) :
    ∀ (j : Nat) (dbuf : List Nat) (src : GoString) (q : Quantum),
      (∀ b ∈ src, b.val ≠ padByte) → readQuantum olen k j dbuf src = .ok q →
      (q.atEnd = true ∧ ∀ b ∈ src, decodeMap b ≠ 0xFF) ∨
      (q.atEnd = false ∧ ∃ pre, src = pre ++ q.rest ∧ pre.length = k ∧
        ∀ b ∈ pre, decodeMap b ≠ 0xFF) := by
  induction k with
  | zero =>
    intro j dbuf src q _ hq
    simp only [readQuantum, Except.ok.injEq] at hq
    subst hq
    exact Or.inr ⟨rfl, [], rfl, rfl, by simp⟩
  | succ k ih =>
    intro j dbuf src q hpad hq
    cases src with
    | nil =>
      simp only [readQuantum, Except.ok.injEq] at hq
      subst hq
      exact Or.inl ⟨rfl, by simp⟩
    | cons b src =>
      have hb : b.val ≠ padByte := hpad b (List.mem_cons_self b src)
      simp only [readQuantum] at hq
      rw [if_neg (fun h => hb h.1)] at hq
      by_cases hbad : decodeMap b = 0xFF
      · rw [if_pos hbad] at hq
        cases hq
      · rw [if_neg hbad] at hq
        have hpad2 : ∀ x ∈ src, x.val ≠ padByte := fun x hx => hpad x (List.mem_cons_of_mem b hx)
        rcases ih (j + 1) _ src q hpad2 hq with ⟨he, hall⟩ | ⟨he, pre, hsrc, hlen, hall⟩
        · refine Or.inl ⟨he, ?_⟩
          intro x hx
          rcases List.mem_cons.mp hx with h | h
          · rw [h]
            exact hbad
          · exact hall x h
        · refine Or.inr ⟨he, b :: pre, ?_, ?_, ?_⟩
          · rw [List.cons_append, ← hsrc]
          · simp [hlen]
          · intro x hx
            rcases List.mem_cons.mp hx with h | h
            · rw [h]
              exact hbad
            · exact hall x h

theorem decodeLoop_error (olen : Nat) (fuel : Nat) :
    ∀ (src : GoString) (dst : List Nat), (∀ b ∈ src, b.val ≠ padByte) →
      (∃ b ∈ src, decodeMap b = 0xFF) → src.length ≤ fuel →
      ∃ e, decodeLoop olen fuel src dst = .error e := by
  induction fuel with
  | zero =>
    intro src dst _ hbad hlen
    obtain ⟨b, hb, _⟩ := hbad
    have : src = [] := List.length_eq_zero.mp (by omega)
    rw [this] at hb
    simp at hb
  | succ fuel ih =>
    intro src dst hpad hbad hlen
    cases src with
    | nil =>
      obtain ⟨b, hb, _⟩ := hbad
      simp at hb
    | cons b src =>
      simp only [decodeLoop]
      cases hq : readQuantum olen 8 0 [] (b :: src) with
      | error e => exact ⟨e, rfl⟩
      | ok q =>
        simp only
        rcases readQuantum_ok olen 8 0 [] (b :: src) q hpad hq with
          ⟨_, hall⟩ | ⟨he, pre, hsrc, hplen, hall⟩
        · obtain ⟨x, hx, hxbad⟩ := hbad
          exact absurd hxbad (hall x hx)
        · rw [he]
          simp only [Bool.false_eq_true, if_false]
          have hlen2 : q.rest.length ≤ fuel := by
            have := congrArg List.length hsrc
            rw [List.length_append, List.length_cons] at this
            rw [List.length_cons] at hlen
            omega
          refine ih q.rest _ ?_ ?_ hlen2
          · intro x hx
            exact hpad x (by rw [hsrc]; exact List.mem_append_right pre hx)
          · obtain ⟨x, hx, hxbad⟩ := hbad
            rw [hsrc] at hx
            rcases List.mem_append.mp hx with h | h
            · exact absurd hxbad (hall x h)
            · exact ⟨x, h, hxbad⟩

/-- DecodeString fails on a string without the pad byte that holds a byte outside the alphabet
other than CR and LF. -/
theorem decodeString_error (s : GoString) (hpad : ∀ b ∈ s, b.val ≠ padByte)
    (hbad : ∃ b ∈ s, decodeMap b = 0xFF ∧ b.val ≠ 0x0D ∧ b.val ≠ 0x0A) :
    ∃ e, decodeString s = .error e := by
  unfold decodeString
  refine decodeLoop_error _ _ _ _ ?_ ?_ (Nat.le_refl _)
  · intro b hb
    exact hpad b (List.mem_of_mem_filter hb)
  · obtain ⟨b, hb, hmap, hcr, hlf⟩ := hbad
    refine ⟨b, ?_, hmap⟩
    unfold stripNewlines
    rw [List.mem_filter]
    exact ⟨hb, by simp [hcr, hlf]⟩

/-- The normalized secret never holds the byte 0xFF, so the padding branch of the decoder is
not taken. -/
theorem normalizeSecret_no_pad (caseTable : Char → Char) (s : GoString) :
    ∀ b ∈ normalizeSecret caseTable s, b.val ≠ padByte := by
  intro b hb
  unfold normalizeSecret stringsToUpper encodeRunes at hb
  obtain ⟨u, _, hbu⟩ := List.mem_flatMap.mp hb
  have hu := char_range u
  unfold padByte
  rcases encodeRune_bytes u b hbu with h | h <;> omega

/-! ### Digest length and truncation -/

/-- A SHA-1 digest has 20 bytes. -/
theorem sha1Sum_length (msg : List Nat) : (sha1Sum msg).length = 20 := by
  simp [sha1Sum, putUint32]

/-- An HMAC-SHA1 digest has 20 bytes. -/
theorem hmacSha1_length (key msg : List Nat) : (hmacSha1 key msg).length = 20 := by
  unfold hmacSha1
  exact sha1Sum_length _

theorem uint32BE_of_length (l : List Nat) (h : l.length = 4) : ∃ v, uint32BE l = some v := by
  match l, h with
  | [a, b, c, d], _ => exact ⟨be32 a b c d, rfl⟩

theorem getLast_of_length (hash : List Nat) (h : hash.length = 20) :
    ∃ last, hash.getLast? = some last := by
  cases hl : hash.getLast? with
  | some last => exact ⟨last, rfl⟩
  | none =>
    rw [List.getLast?_eq_none_iff] at hl
    rw [hl] at h
    simp at h

theorem sliceBytes_of_le (xs : List Nat) (lo : Nat) (h : lo + 4 ≤ xs.length) :
    ∃ four, sliceBytes xs lo (lo + 4) = some four ∧ four.length = 4 := by
  refine ⟨(xs.drop lo).take 4, ?_, ?_⟩
  · unfold sliceBytes
    rw [if_pos ⟨by omega, h⟩]
    simp
  · simp
    omega

/-- On a 20-byte digest the truncation does not panic and formats a number below 1,000,000. -/
theorem truncateHash_of_length (hash : List Nat) (h : hash.length = 20) :
    ∃ n, n < 1000000 ∧ truncateHash hash = some (sprintf06d n) := by
  obtain ⟨last, hlast⟩ := getLast_of_length hash h
  have hoff : last &&& 0x0f ≤ 15 := Nat.and_le_right
  have hmod : ((last &&& 0x0f) + 4) % 256 = (last &&& 0x0f) + 4 := by omega
  obtain ⟨four, hfour, hlen⟩ := sliceBytes_of_le hash (last &&& 0x0f) (by omega)
  obtain ⟨v, hv⟩ := uint32BE_of_length four hlen
  refine ⟨(v &&& 0x7fffffff) % 1000000, Nat.mod_lt _ (by decide), ?_⟩
  unfold truncateHash
  simp only [hlast, hmod, hfour, hv]

/-! ### The shape of the result of generateTOTP -/

/-- When the normalized secret decodes to a key, generateTOTP returns the code truncated from
the HMAC of the counter, the remaining seconds and a nil error. -/
theorem generateTOTP_of_key (caseTable : Char → Char) (secret : GoString) (now : Int)
    (key : List Nat) (h : decodeString (normalizeSecret caseTable secret) = .ok key) :
    ∃ n, n < 1000000 ∧
      truncateHash (hmacSha1 key (putUint64 (timeCounter now))) = some (sprintf06d n) ∧
      generateTOTP caseTable secret now = some ⟨sprintf06d n, remainingSeconds now, none⟩ := by
  obtain ⟨n, hn, ht⟩ :=
    truncateHash_of_length (hmacSha1 key (putUint64 (timeCounter now))) (hmacSha1_length _ _)
  refine ⟨n, hn, ht, ?_⟩
  unfold generateTOTP
  simp only [h, ht]

/-- When the normalized secret does not decode, generateTOTP returns the wrapped error. -/
theorem generateTOTP_of_error (caseTable : Char → Char) (secret : GoString) (now : Int)
    (e : Nat) (h : decodeString (normalizeSecret caseTable secret) = .error e) :
    generateTOTP caseTable secret now = some ⟨"", 0, some (invalidSecretMessage e)⟩ := by
  unfold generateTOTP
  simp only [h]

/-- A result with a nil error comes from a key the normalized secret decodes to. -/
theorem generateTOTP_success (caseTable : Char → Char) (secret : GoString) (now : Int)
    (r : TOTPResult) (hr : generateTOTP caseTable secret now = some r) (he : r.err = none) :
    ∃ key n, decodeString (normalizeSecret caseTable secret) = .ok key ∧ n < 1000000 ∧
      truncateHash (hmacSha1 key (putUint64 (timeCounter now))) = some (sprintf06d n) ∧
      r = ⟨sprintf06d n, remainingSeconds now, none⟩ := by
  cases hd : decodeString (normalizeSecret caseTable secret) with
  | error e =>
    rw [generateTOTP_of_error caseTable secret now e hd] at hr
    injection hr with hr
    rw [← hr] at he
    simp at he
  | ok key =>
    obtain ⟨n, hn, ht, hg⟩ := generateTOTP_of_key caseTable secret now key hd
    rw [hg] at hr
    injection hr with hr
    exact ⟨key, n, rfl, hn, ht, hr.symm⟩

/-- The call of generateTOTP never panics: it returns a result for every secret and time. -/
theorem generateTOTP_total (caseTable : Char → Char) (secret : GoString) (now : Int) :
    ∃ res, generateTOTP caseTable secret now = some res := by
  cases hd : decodeString (normalizeSecret caseTable secret) with
  | error e => exact ⟨_, generateTOTP_of_error caseTable secret now e hd⟩
  | ok key =>
    obtain ⟨n, _, _, hg⟩ := generateTOTP_of_key caseTable secret now key hd
    exact ⟨_, hg⟩

/-! ### Time arithmetic -/

theorem remainingSeconds_of_nonneg (now : Int) (h : 0 ≤ now) :
    remainingSeconds now = 30 - now % 30 := by
  unfold remainingSeconds totpPeriod
  rw [Int.tmod_eq_emod h (by decide)]

theorem timeCounter_of_nonneg (now : Int) (h : 0 ≤ now) (hmax : now < 2 ^ 63) :
    (timeCounter now : Int) = now / 30 := by
  unfold timeCounter totpPeriod
  rw [Int.tdiv_eq_ediv h (by decide)]
  have h63 : (2 : Int) ^ 63 = 9223372036854775808 := by norm_num
  have h64 : (2 : Int) ^ 64 = 18446744073709551616 := by norm_num
  rw [h63] at hmax
  rw [h64]
  omega

/-! ### Decimal formatting -/

theorem digitChar_isDigit (d : Nat) (h : d < 10) : (digitChar d).isDigit = true := by
  interval_cases d <;> rfl

theorem decimalAux_length_le (fuel : Nat) :
    ∀ (n : Nat) (acc : List Char) (k : Nat), n < 10 ^ (k + 1) →
      (decimalAux fuel n acc).length ≤ k + 1 + acc.length := by
  induction fuel with
  | zero =>
    intro n acc k _
    simp [decimalAux]
  | succ fuel ih =>
    intro n acc k hn
    unfold decimalAux
    split
    · simp
      omega
    · rename_i hge
      cases k with
      | zero => omega
      | succ k =>
        have hdiv : n / 10 < 10 ^ (k + 1) := by
          rw [Nat.div_lt_iff_lt_mul (by decide)]
          rw [Nat.pow_succ] at hn
          exact hn
        have := ih (n / 10) (digitChar (n % 10) :: acc) k hdiv
        simp at this
        omega

theorem decimalAux_digits (fuel : Nat) :
    ∀ (n : Nat) (acc : List Char), (∀ c ∈ acc, c.isDigit = true) →
      ∀ c ∈ decimalAux fuel n acc, c.isDigit = true := by
  induction fuel with
  | zero =>
    intro n acc hacc c hc
    exact hacc c hc
  | succ fuel ih =>
    intro n acc hacc c hc
    unfold decimalAux at hc
    split at hc
    · rename_i hlt
      rcases List.mem_cons.mp hc with h | h
      · rw [h]
        exact digitChar_isDigit n hlt
      · exact hacc c h
    · refine ih (n / 10) (digitChar (n % 10) :: acc) ?_ c hc
      intro c' hc'
      rcases List.mem_cons.mp hc' with h | h
      · rw [h]
        exact digitChar_isDigit _ (Nat.mod_lt _ (by decide))
      · exact hacc c' h

theorem digitChar_toNat (d : Nat) (h : d < 10) : (digitChar d).toNat - 0x30 = d := by
  interval_cases d <;> rfl

theorem decimalAux_value (fuel : Nat) :
    ∀ (n : Nat) (acc : List Char), n < 10 ^ fuel →
      (decimalAux fuel n acc).foldl (fun v c => 10 * v + (c.toNat - 0x30)) 0 =
        acc.foldl (fun v c => 10 * v + (c.toNat - 0x30)) n := by
  induction fuel with
  | zero =>
    intro n acc hn
    have : n = 0 := by simpa using hn
    subst this
    rfl
  | succ fuel ih =>
    intro n acc hn
    unfold decimalAux
    split
    · rename_i hlt
      simp only [List.foldl_cons, Nat.mul_zero, Nat.zero_add, digitChar_toNat n hlt]
    · have hdiv : n / 10 < 10 ^ fuel := by
        rw [Nat.div_lt_iff_lt_mul (by decide)]
        rw [Nat.pow_succ] at hn
        exact hn
      rw [ih (n / 10) (digitChar (n % 10) :: acc) hdiv]
      simp only [List.foldl_cons, digitChar_toNat (n % 10) (Nat.mod_lt _ (by decide))]
      congr 1
      omega

theorem zeros_foldl (k : Nat) (l : List Char) :
    (List.replicate k (Char.ofNat 0x30) ++ l).foldl (fun v c => 10 * v + (c.toNat - 0x30)) 0 =
      l.foldl (fun v c => 10 * v + (c.toNat - 0x30)) 0 := by
  induction k with
  | zero => rfl
  | succ k ih =>
    rw [List.replicate_succ, List.cons_append, List.foldl_cons]
    exact ih

/-- The %06d rendering of a number below 1,000,000 has six characters, all digits, and denotes
the number. -/
theorem sprintf06d_spec (n : Nat) (h : n < 1000000) :
    (sprintf06d n).length = 6 ∧ (∀ c ∈ (sprintf06d n).data, c.isDigit = true) ∧
      decimalValue (sprintf06d n) = n := by
  have hlen : (formatDecimal n).length ≤ 6 := by
    have := decimalAux_length_le (n + 1) n [] 5 (by norm_num; omega)
    simpa [formatDecimal] using this
  refine ⟨?_, ?_, ?_⟩
  · show (List.replicate _ _ ++ formatDecimal n).length = 6
    simp
    omega
  · intro c hc
    have hc' : c ∈ List.replicate (6 - (formatDecimal n).length) (Char.ofNat 0x30) ++
        formatDecimal n := hc
    rcases List.mem_append.mp hc' with h0 | h1
    · rw [(List.mem_replicate.mp h0).2]
      rfl
    · exact decimalAux_digits (n + 1) n [] (by simp) c h1
  · show (List.replicate _ _ ++ formatDecimal n).foldl _ 0 = n
    rw [zeros_foldl]
    unfold formatDecimal
    have hfuel : n < 10 ^ (n + 1) :=
      Nat.lt_of_lt_of_le (Nat.lt_pow_self (show 1 < 10 by decide) n)
        (Nat.pow_le_pow_right (by decide) (Nat.le_succ n))
    rw [decimalAux_value (n + 1) n [] hfuel]
    rfl

/-! ## Known vector -/

/-- C1: for the RFC 6238 secret at Unix time 59 the time counter is 1 and generateTOTP
returns the code 287082 with no error, whatever the case table. -/
theorem generateTOTP_rfc6238_at_59 (caseTable : Char → Char) :
    decodeString rfcSecret = .ok rfcKey ∧
    timeCounter 59 = 1 ∧
    generateTOTP caseTable rfcSecret 59 = some ⟨"287082", 1, none⟩ := by
  refine ⟨rfl, by decide!, ?_⟩
  rw [generateTOTP_congr caseTable noCaseTable rfcSecret rfcSecret 59
    (normalizeSecret_ascii caseTable noCaseTable rfcSecret (by decide!))]
  decide!

/-! ## Empty keys -/

/-- C2, as the code behaves: a secret whose normalized form decodes to the empty key is not
rejected by generateTOTP. With the empty string and with a string of spaces the HMAC is computed
under the zero-length key and a code is returned with a nil error. -/
theorem generateTOTP_empty_secret_returns_code :
    decodeString (normalizeSecret noCaseTable (goString "")) = .ok [] ∧
    decodeString (normalizeSecret noCaseTable (goString "   ")) = .ok [] ∧
    generateTOTP noCaseTable (goString "") 59 = some ⟨"812658", 1, none⟩ ∧
    generateTOTP noCaseTable (goString "   ") 59 = some ⟨"812658", 1, none⟩ := by
  refine ⟨rfl, rfl, by decide!, by decide!⟩

/-- C2, amended: for every secret whose normalized form decodes to the empty key,
generateTOTP succeeds: it returns the six-digit code truncated from the HMAC-SHA1 of the counter
under the zero-length key, the remaining seconds, and a nil error. -/
theorem generateTOTP_empty_key (caseTable : Char → Char) (secret : GoString) (now : Int)
    (h : decodeString (normalizeSecret caseTable secret) = .ok []) :
    ∃ n, n < 1000000 ∧
      truncateHash (hmacSha1 [] (putUint64 (timeCounter now))) = some (sprintf06d n) ∧
      generateTOTP caseTable secret now = some ⟨sprintf06d n, remainingSeconds now, none⟩ :=
  generateTOTP_of_key caseTable secret now [] h

theorem generateTOTP_empty_key_witness :
    decodeString (normalizeSecret noCaseTable (goString "   ")) = .ok [] ∧
    ∃ n, n < 1000000 ∧
      truncateHash (hmacSha1 [] (putUint64 (timeCounter 59))) = some (sprintf06d n) ∧
      generateTOTP noCaseTable (goString "   ") 59 =
        some ⟨sprintf06d n, remainingSeconds 59, none⟩ :=
  ⟨rfl, generateTOTP_empty_key noCaseTable (goString "   ") 59 rfl⟩

/-! ## Code format -/

/-- C4: whenever generateTOTP succeeds, the code has exactly six characters, each an ASCII
digit, and it is the zero-padded decimal rendering of a number below 1,000,000, whose value it
denotes. -/
theorem generateTOTP_code_format (caseTable : Char → Char) (secret : GoString) (now : Int)
    (r : TOTPResult) (hr : generateTOTP caseTable secret now = some r) (he : r.err = none) :
    r.code.length = 6 ∧ (∀ c ∈ r.code.data, c.isDigit = true) ∧
      ∃ n, n < 1000000 ∧ r.code = sprintf06d n ∧ decimalValue r.code = n := by
  obtain ⟨key, n, _, hn, _, hres⟩ := generateTOTP_success caseTable secret now r hr he
  obtain ⟨h1, h2, h3⟩ := sprintf06d_spec n hn
  subst hres
  exact ⟨h1, h2, n, hn, rfl, h3⟩

theorem generateTOTP_code_format_witness :
    generateTOTP noCaseTable rfcSecret 1234567890 = some ⟨"005924", 30, none⟩ ∧
    ("005924".length = 6 ∧ (∀ c ∈ "005924".data, c.isDigit = true) ∧
      ∃ n, n < 1000000 ∧ "005924" = sprintf06d n ∧ decimalValue "005924" = n) :=
  ⟨by decide!,
   generateTOTP_code_format noCaseTable rfcSecret 1234567890 ⟨"005924", 30, none⟩
     (by decide!) rfl⟩

/-! ## Remaining seconds -/

/-- C8, as the code behaves: Unix time 0 is the first second of the window after the one of
Unix time -1, and generateTOTP returns remaining = 30 at 0 but remaining = 31, not 1, at -1. -/
theorem remaining_before_epoch_boundary :
    Int.fdiv (-1 + 1) 30 ≠ Int.fdiv (-1) 30 ∧
    generateTOTP noCaseTable rfcSecret (-1 + 1) = some ⟨"755224", 30, none⟩ ∧
    generateTOTP noCaseTable rfcSecret (-1) = some ⟨"755224", 31, none⟩ ∧
    ¬ ((31 : Int) = 1) := by
  refine ⟨by decide, by decide!, by decide!, by decide⟩

/-- C8, amended: for every timestamp t at or after the Unix epoch and every secret on which
generateTOTP succeeds, if t+1 lies in the same 30-second window as t then remaining(t+1) =
remaining(t) - 1, and otherwise remaining(t+1) = 30 and remaining(t) = 1. -/
theorem remaining_step_from_epoch (caseTable : Char → Char) (secret : GoString) (t : Int)
    (r r1 : TOTPResult) (h0 : 0 ≤ t) (hr : generateTOTP caseTable secret t = some r)
    (he : r.err = none) (hr1 : generateTOTP caseTable secret (t + 1) = some r1) :
    r1.err = none ∧
    (Int.fdiv (t + 1) 30 = Int.fdiv t 30 → r1.remaining = r.remaining - 1) ∧
    (Int.fdiv (t + 1) 30 ≠ Int.fdiv t 30 → r1.remaining = 30 ∧ r.remaining = 1) := by
  obtain ⟨key, n, hkey, _, _, hres⟩ := generateTOTP_success caseTable secret t r hr he
  obtain ⟨m, _, _, hg⟩ := generateTOTP_of_key caseTable secret (t + 1) key hkey
  rw [hg] at hr1
  injection hr1 with hr1
  subst hres
  subst hr1
  show (none : Option String) = none ∧
    (Int.fdiv (t + 1) 30 = Int.fdiv t 30 → remainingSeconds (t + 1) = remainingSeconds t - 1) ∧
    (Int.fdiv (t + 1) 30 ≠ Int.fdiv t 30 → remainingSeconds (t + 1) = 30 ∧ remainingSeconds t = 1)
  rw [remainingSeconds_of_nonneg t h0, remainingSeconds_of_nonneg (t + 1) (by omega),
    Int.fdiv_eq_ediv (t + 1) (by decide), Int.fdiv_eq_ediv t (by decide)]
  refine ⟨rfl, ?_, ?_⟩ <;> intro h <;> omega

theorem remaining_step_from_epoch_witness :
    (0 : Int) ≤ 59 ∧ generateTOTP noCaseTable rfcSecret 59 = some ⟨"287082", 1, none⟩ ∧
    generateTOTP noCaseTable rfcSecret (59 + 1) = some ⟨"359152", 30, none⟩ ∧
    ((none : Option String) = none ∧
     (Int.fdiv (59 + 1) 30 = Int.fdiv 59 30 → (30 : Int) = 1 - 1) ∧
     (Int.fdiv (59 + 1) 30 ≠ Int.fdiv 59 30 → (30 : Int) = 30 ∧ (1 : Int) = 1)) :=
  ⟨by decide, by decide!, by decide!,
   remaining_step_from_epoch noCaseTable rfcSecret 59 ⟨"287082", 1, none⟩
     ⟨"359152", 30, none⟩ (by decide) (by decide!) rfl (by decide!)⟩

/-! ## Window stability -/

/-- C7, as the code behaves: Unix times -1 and -30 lie in the same 30-second window (floor
-1, which is 2^64 - 1 as an unsigned 64-bit integer), but generateTOTP derives the counter 0
at -1 and the counter 2^64 - 1 at -30, and returns different codes. -/
theorem window_before_epoch_differs :
    Int.fdiv (-1) 30 = Int.fdiv (-30) 30 ∧
    timeCounter (-1) = 0 ∧ timeCounter (-30) = 2 ^ 64 - 1 ∧
    ((Int.fdiv (-1) 30) % 2 ^ 64).toNat = 2 ^ 64 - 1 ∧
    generateTOTP noCaseTable rfcSecret (-1) = some ⟨"755224", 31, none⟩ ∧
    generateTOTP noCaseTable rfcSecret (-30) = some ⟨"094451", 30, none⟩ := by
  refine ⟨by decide, by decide!, by decide!, by decide!, by decide!, by decide!⟩

/-- C7, amended: for every secret and any two timestamps t1 and t2 at or after the Unix epoch
(and within the signed 64-bit range) that lie in the same 30-second window, generateTOTP derives
the same time counter, equal to floor(t/30), and returns the same code and the same error. -/
theorem window_stability_from_epoch (caseTable : Char → Char) (secret : GoString)
    (t1 t2 : Int) (h1 : 0 ≤ t1) (h2 : 0 ≤ t2) (m1 : t1 < 2 ^ 63) (m2 : t2 < 2 ^ 63)
    (hw : Int.fdiv t1 30 = Int.fdiv t2 30) :
    timeCounter t1 = timeCounter t2 ∧
    (timeCounter t1 : Int) = Int.fdiv t1 30 ∧ (timeCounter t2 : Int) = Int.fdiv t2 30 ∧
    (generateTOTP caseTable secret t1).map (fun r => (r.code, r.err)) =
      (generateTOTP caseTable secret t2).map (fun r => (r.code, r.err)) := by
  have e1 : (timeCounter t1 : Int) = Int.fdiv t1 30 := by
    rw [timeCounter_of_nonneg t1 h1 m1, Int.fdiv_eq_ediv t1 (by decide)]
  have e2 : (timeCounter t2 : Int) = Int.fdiv t2 30 := by
    rw [timeCounter_of_nonneg t2 h2 m2, Int.fdiv_eq_ediv t2 (by decide)]
  have hc : timeCounter t1 = timeCounter t2 := by
    have : (timeCounter t1 : Int) = (timeCounter t2 : Int) := by rw [e1, e2, hw]
    exact Int.ofNat.inj this
  refine ⟨hc, e1, e2, ?_⟩
  cases hd : decodeString (normalizeSecret caseTable secret) with
  | error e =>
    rw [generateTOTP_of_error caseTable secret t1 e hd,
      generateTOTP_of_error caseTable secret t2 e hd]
  | ok key =>
    obtain ⟨n1, _, ht1, hg1⟩ := generateTOTP_of_key caseTable secret t1 key hd
    obtain ⟨n2, _, ht2, hg2⟩ := generateTOTP_of_key caseTable secret t2 key hd
    rw [hc, ht2] at ht1
    injection ht1 with ht1
    rw [hg1, hg2, ht1]
    rfl

theorem window_stability_from_epoch_witness :
    Int.fdiv 30 30 = Int.fdiv 59 30 ∧
    (timeCounter 30 = timeCounter 59 ∧
    (timeCounter 30 : Int) = Int.fdiv 30 30 ∧ (timeCounter 59 : Int) = Int.fdiv 59 30 ∧
    (generateTOTP noCaseTable rfcSecret 30).map (fun r => (r.code, r.err)) =
      (generateTOTP noCaseTable rfcSecret 59).map (fun r => (r.code, r.err))) :=
  ⟨by decide,
   window_stability_from_epoch noCaseTable rfcSecret 30 59 (by decide) (by decide)
     (by decide) (by decide) (by decide)⟩

/-! ## Truncation bounds -/

/-- C10: for every key and every counter value the HMAC-SHA1 digest has exactly 20 bytes, the
offset taken from the low nibble of its last byte satisfies offset + 4 ≤ 20, the truncation
does not panic, and generateTOTP succeeds on every secret whose normalized form base32-decodes
without error. -/
theorem truncation_in_bounds (caseTable : Char → Char) (secret : GoString) (now : Int)
    (key : List Nat) (counter : Nat) :
    (hmacSha1 key (putUint64 counter)).length = 20 ∧
    (∃ last, (hmacSha1 key (putUint64 counter)).getLast? = some last ∧
      (last &&& 0x0f) + 4 ≤ 20 ∧
      ∃ four, sliceBytes (hmacSha1 key (putUint64 counter)) (last &&& 0x0f)
        (((last &&& 0x0f) + 4) % 256) = some four ∧ four.length = 4) ∧
    (∃ code, truncateHash (hmacSha1 key (putUint64 counter)) = some code) ∧
    (decodeString (normalizeSecret caseTable secret) = .ok key →
      ∃ code, generateTOTP caseTable secret now = some ⟨code, remainingSeconds now, none⟩) := by
  have hlen := hmacSha1_length key (putUint64 counter)
  refine ⟨hlen, ?_, ?_, ?_⟩
  · obtain ⟨last, hlast⟩ := getLast_of_length _ hlen
    have hoff : last &&& 0x0f ≤ 15 := Nat.and_le_right
    have hmod : ((last &&& 0x0f) + 4) % 256 = (last &&& 0x0f) + 4 := by omega
    refine ⟨last, hlast, by omega, ?_⟩
    rw [hmod]
    exact sliceBytes_of_le _ _ (by omega)
  · obtain ⟨n, _, hn⟩ := truncateHash_of_length _ hlen
    exact ⟨_, hn⟩
  · intro hkey
    obtain ⟨n, _, _, hg⟩ := generateTOTP_of_key caseTable secret now key hkey
    exact ⟨_, hg⟩

theorem truncation_in_bounds_witness :
    decodeString (normalizeSecret noCaseTable rfcSecret) =
      .ok rfcKey ∧
    ∃ code, generateTOTP noCaseTable rfcSecret 59 = some ⟨code, remainingSeconds 59, none⟩ :=
  ⟨rfl, (truncation_in_bounds noCaseTable rfcSecret 59
    rfcKey 1).2.2.2 rfl⟩

/-! ## The HTTP handler -/

/-- C9, as the code behaves: a POST whose body is well-formed JSON but not an object (such as
an empty array), or an object whose secret member is a number, supplies no secret string, and
handleTOTP answers 400 with the error "invalid JSON body", not "missing secret parameter". -/
theorem handleTOTP_undecodable_body :
    JsonBody.other.wellFormed = true ∧
    (JsonBody.object [SecretMember.mismatch]).wellFormed = true ∧
    handleTOTP noCaseTable ⟨"POST", JsonBody.other, []⟩ 59 =
      some ⟨400, ⟨false, "", 0, "invalid JSON body"⟩, []⟩ ∧
    handleTOTP noCaseTable ⟨"POST", JsonBody.object [SecretMember.mismatch], []⟩ 59 =
      some ⟨400, ⟨false, "", 0, "invalid JSON body"⟩, []⟩ ∧
    "invalid JSON body" ≠ "missing secret parameter" := by
  refine ⟨rfl, rfl, rfl, rfl, by decide⟩

/-- C9, amended: for a GET with a query string, or a POST whose JSON body decodes into the
request struct, when the secret is absent or empty handleTOTP answers 400 with success false
and the error "missing secret parameter" and makes no call of generateTOTP; for a non-empty
secret generateTOTP returns a result, and the answer is 200 with success true, the code and
the remaining seconds when its error is nil, and 400 with success false and the error message
of generateTOTP otherwise. -/
theorem handleTOTP_contract (caseTable : Char → Char) (r : Request) (now : Int)
    (secret : GoString)
    (hs : (r.Method = "POST" ∧ decodeBody r.body = some secret) ∨
      (r.Method ≠ "POST" ∧ r.querySecret = secret)) :
    (secret = [] →
      handleTOTP caseTable r now =
        some ⟨400, ⟨false, "", 0, "missing secret parameter"⟩, []⟩) ∧
    (secret ≠ [] →
      ∃ res, generateTOTP caseTable secret now = some res ∧
        (res.err = none →
          handleTOTP caseTable r now =
            some ⟨200, ⟨true, res.code, res.remaining, ""⟩, [secret]⟩) ∧
        (∀ msg, res.err = some msg →
          handleTOTP caseTable r now = some ⟨400, ⟨false, "", 0, msg⟩, [secret]⟩)) := by
  have hreq : requestSecret r = some secret := by
    unfold requestSecret
    rcases hs with ⟨hm, hb⟩ | ⟨hm, hq⟩
    · rw [if_pos hm, hb]
    · rw [if_neg hm, hq]
  constructor
  · intro hempty
    unfold handleTOTP
    simp only [hreq, hempty, if_true]
  · intro hne
    obtain ⟨res, hres⟩ := generateTOTP_total caseTable secret now
    refine ⟨res, hres, ?_, ?_⟩
    · intro he
      unfold handleTOTP
      simp only [hreq, if_neg hne, hres, he]
    · intro msg he
      unfold handleTOTP
      simp only [hreq, if_neg hne, hres, he]

theorem handleTOTP_contract_witness :
    handleTOTP noCaseTable ⟨"GET", JsonBody.malformed, []⟩ 59 =
      some ⟨400, ⟨false, "", 0, "missing secret parameter"⟩, []⟩ ∧
    handleTOTP noCaseTable ⟨"POST", JsonBody.object [], []⟩ 59 =
      some ⟨400, ⟨false, "", 0, "missing secret parameter"⟩, []⟩ ∧
    ∃ res, generateTOTP noCaseTable rfcSecret 59 = some res ∧
      (res.err = none →
        handleTOTP noCaseTable
            ⟨"POST", JsonBody.object [SecretMember.string rfcSecret], []⟩ 59 =
          some ⟨200, ⟨true, res.code, res.remaining, ""⟩, [rfcSecret]⟩) ∧
      (∀ msg, res.err = some msg →
        handleTOTP noCaseTable
            ⟨"POST", JsonBody.object [SecretMember.string rfcSecret], []⟩ 59 =
          some ⟨400, ⟨false, "", 0, msg⟩, [rfcSecret]⟩) :=
  ⟨(handleTOTP_contract noCaseTable ⟨"GET", JsonBody.malformed, []⟩ 59 []
      (Or.inr ⟨by decide, rfl⟩)).1 rfl,
   (handleTOTP_contract noCaseTable ⟨"POST", JsonBody.object [], []⟩ 59 []
      (Or.inl ⟨rfl, rfl⟩)).1 rfl,
   (handleTOTP_contract noCaseTable
      ⟨"POST", JsonBody.object [SecretMember.string rfcSecret], []⟩ 59 rfcSecret
      (Or.inl ⟨rfl, rfl⟩)).2 (by decide)⟩

/-! ## Invalid characters -/

/-- C3, as the code behaves: the line feed is outside the base32 alphabet and stays in the
normalized secret, but DecodeString ignores it, so generateTOTP returns a code and a nil
error. -/
theorem generateTOTP_accepts_newline :
    toByte 0x0A ∈ normalizeSecret noCaseTable (goString "GEZDGNBVGY3TQOJQ\nGEZDGNBVGY3TQOJQ") ∧
    toByte 0x0A ∉ base32Alphabet ∧
    generateTOTP noCaseTable (goString "GEZDGNBVGY3TQOJQ\nGEZDGNBVGY3TQOJQ") 59 =
      some ⟨"287082", 1, none⟩ := by
  refine ⟨by decide!, by decide!, by decide!⟩

/-- C3, amended: for every secret whose normalized form contains a byte that is outside the
base32 alphabet and is neither a carriage return nor a line feed, generateTOTP returns, at every
timestamp, an empty code, remaining 0 and the error "invalid secret key: " followed by the
text of the decode error. -/
theorem generateTOTP_rejects_invalid_char (caseTable : Char → Char) (secret : GoString)
    (b : Byte) (hb : b ∈ normalizeSecret caseTable secret) (hbad : b ∉ base32Alphabet)
    (hcr : b.val ≠ 0x0D) (hlf : b.val ≠ 0x0A) :
    ∃ e, ∀ now : Int, generateTOTP caseTable secret now =
      some ⟨"", 0, some ("invalid secret key: " ++ corruptInputError e)⟩ := by
  have hmap : ∀ x : Byte, x ∉ base32Alphabet → decodeMap x = 0xFF := by decide!
  obtain ⟨e, he⟩ := decodeString_error (normalizeSecret caseTable secret)
    (normalizeSecret_no_pad caseTable secret) ⟨b, hb, hmap b hbad, hcr, hlf⟩
  exact ⟨e, fun now => generateTOTP_of_error caseTable secret now e he⟩

theorem generateTOTP_rejects_invalid_char_witness :
    toByte 0x31 ∈ normalizeSecret noCaseTable (goString "gezd gnbv gy3t qoj1") ∧
    toByte 0x31 ∉ base32Alphabet ∧
    ∃ e, ∀ now : Int, generateTOTP noCaseTable (goString "gezd gnbv gy3t qoj1") now =
      some ⟨"", 0, some ("invalid secret key: " ++ corruptInputError e)⟩ :=
  ⟨by decide!, by decide!,
   generateTOTP_rejects_invalid_char noCaseTable (goString "gezd gnbv gy3t qoj1")
     (toByte 0x31) (by decide!) (by decide!) (by decide) (by decide)⟩

/-! ## Normalization invariance -/

end Totp
